import Mathlib

/-!
Verification of the Presto → Databricks SQL converter's conversion pipeline
(statement splitting, translation adapter, quirk fixups, classification,
batch orchestration) and of the workspace app deployment notebook.

The pipeline components are modelled from the specification's component
contracts (the repository snapshot ships only the README and the deployment
notebook); the deployment notebook's cells are embedded directly.
-/

/-! ### Statement Splitter

Modelled from the spec: `converter.py`'s statement splitter is missing from
the snapshot.  `split(text)` scans character by character with a five-state
machine {Normal, InSingleQuoteString, InDoubleQuoteString, InLineComment,
InBlockComment}; the terminator `;` only ends a statement in state Normal;
doubled quotes act as escapes inside strings; a trailing statement without a
terminator is still emitted; blank/whitespace-only segments are dropped. -/

inductive SplitState where
  | normal
  | inSingleQuoteString
  | inDoubleQuoteString
  | inLineComment
  | inBlockComment
deriving DecidableEq

structure StatementUnit where
  text : List Char
  sep : Option Char
deriving DecidableEq

/-- The characters a `StatementUnit` contributes back when reassembling the
input: its raw text followed by its original separator, if any. -/
def unitChars (u : StatementUnit) : List Char :=
  u.text ++ u.sep.toList

def unitsChars (us : List StatementUnit) : List Char :=
  (us.map unitChars).flatten

/-- One pass of the splitter state machine.  `acc` holds the characters of
the current segment in reverse order. -/
def splitAllAux : SplitState → List Char → List Char → List StatementUnit
  | _, acc, [] => if acc.isEmpty then [] else [⟨acc.reverse, none⟩]
  | .normal, acc, ';' :: cs => ⟨acc.reverse, some ';'⟩ :: splitAllAux .normal [] cs
  | .normal, acc, '\'' :: cs => splitAllAux .inSingleQuoteString ('\'' :: acc) cs
  | .normal, acc, '"' :: cs => splitAllAux .inDoubleQuoteString ('"' :: acc) cs
  | .normal, acc, '-' :: '-' :: cs => splitAllAux .inLineComment ('-' :: '-' :: acc) cs
  | .normal, acc, '/' :: '*' :: cs => splitAllAux .inBlockComment ('*' :: '/' :: acc) cs
  | .normal, acc, c :: cs => splitAllAux .normal (c :: acc) cs
  | .inSingleQuoteString, acc, '\'' :: '\'' :: cs =>
      splitAllAux .inSingleQuoteString ('\'' :: '\'' :: acc) cs
  | .inSingleQuoteString, acc, '\'' :: cs => splitAllAux .normal ('\'' :: acc) cs
  | .inSingleQuoteString, acc, c :: cs => splitAllAux .inSingleQuoteString (c :: acc) cs
  | .inDoubleQuoteString, acc, '"' :: '"' :: cs =>
      splitAllAux .inDoubleQuoteString ('"' :: '"' :: acc) cs
  | .inDoubleQuoteString, acc, '"' :: cs => splitAllAux .normal ('"' :: acc) cs
  | .inDoubleQuoteString, acc, c :: cs => splitAllAux .inDoubleQuoteString (c :: acc) cs
  | .inLineComment, acc, '\n' :: cs => splitAllAux .normal ('\n' :: acc) cs
  | .inLineComment, acc, c :: cs => splitAllAux .inLineComment (c :: acc) cs
  | .inBlockComment, acc, '*' :: '/' :: cs => splitAllAux .normal ('/' :: '*' :: acc) cs
  | .inBlockComment, acc, c :: cs => splitAllAux .inBlockComment (c :: acc) cs

/-- All raw segments of the input, blank ones included. -/
def splitAll (text : String) : List StatementUnit :=
  splitAllAux .normal [] text.data

def isBlankUnit (u : StatementUnit) : Bool :=
  u.text.all (fun c => c.isWhitespace)

/-- `split(text)`: the segments with blank/whitespace-only ones dropped. -/
def split (text : String) : List StatementUnit :=
  (splitAll text).filter (fun u => !(isBlankUnit u))

/-! ### Normalization and Classifier

Modelled from the spec: the classifier of `converter.py` is missing from the
snapshot.  `classify(original, translated)` returns Error on a Parse/Render
failure (diagnostic carrying the error kind, message and attempted candidate
text), AlreadyCompatible when original and translated agree under
whitespace-insensitive, case-insensitive normalization, else Converted. -/

/-- Upper-to-lower ASCII letter table used for case-insensitive keyword
comparison and for alias/identifier casing normalization. -/
def lowerPairs : List (Char × Char) :=
  [('A', 'a'), ('B', 'b'), ('C', 'c'), ('D', 'd'), ('E', 'e'), ('F', 'f'),
   ('G', 'g'), ('H', 'h'), ('I', 'i'), ('J', 'j'), ('K', 'k'), ('L', 'l'),
   ('M', 'm'), ('N', 'n'), ('O', 'o'), ('P', 'p'), ('Q', 'q'), ('R', 'r'),
   ('S', 's'), ('T', 't'), ('U', 'u'), ('V', 'v'), ('W', 'w'), ('X', 'x'),
   ('Y', 'y'), ('Z', 'z')]

/-- Substitute a character through a pair table, leaving unmatched
characters unchanged. -/
def mapChar (pairs : List (Char × Char)) (c : Char) : Char :=
  (pairs.lookup c).getD c

/-- The whitespace-separated words of a character list, `acc` holding the
current word in reverse. -/
def wordsAux : List Char → List Char → List (List Char)
  | acc, [] => if acc.isEmpty then [] else [acc.reverse]
  | acc, c :: cs =>
    if c.isWhitespace then
      if acc.isEmpty then wordsAux [] cs else acc.reverse :: wordsAux [] cs
    else wordsAux (c :: acc) cs

/-- Whitespace-insensitive, case-insensitive normal form: the list of
lowercased words. -/
def normalizeSql (s : String) : List (List Char) :=
  (wordsAux [] s.data).map (fun w => w.map (mapChar lowerPairs))

inductive TransErrorKind where
  | parseError
  | renderError
deriving DecidableEq

/-- A translation failure surfaced by the external transpiler adapter:
its kind, message, and the cleaned candidate text last attempted. -/
structure TransError where
  kind : TransErrorKind
  message : String
  candidate : String
deriving DecidableEq

def kindLabel : TransErrorKind → String
  | .parseError => "ParseError"
  | .renderError => "RenderError"

/-- The diagnostic recorded for an Error outcome: error kind, message and
the attempted candidate text. -/
def diagnosticFor (e : TransError) : String :=
  kindLabel e.kind ++ ": " ++ e.message ++ " | candidate: " ++ e.candidate

inductive Status where
  | converted
  | alreadyCompatible
  | error
deriving DecidableEq

structure ConversionResult where
  status : Status
  original : String
  produced : Option String
  diagnostic : Option String
deriving DecidableEq

/-- `classify(original, translated)` from the spec's Classifier contract. -/
def classify (original : String) (translated : Except TransError String) :
    ConversionResult :=
  match translated with
  | .error e =>
      { status := .error, original := original, produced := none,
        diagnostic := some (diagnosticFor e) }
  | .ok t =>
      if normalizeSql original = normalizeSql t then
        { status := .alreadyCompatible, original := original,
          produced := some t, diagnostic := none }
      else
        { status := .converted, original := original,
          produced := some t, diagnostic := none }

/-! ### Quirk Fixup Engine

Modelled from the spec: `src/utils/helper_functions.py` is missing from the
snapshot.  A QuirkRule is a named predicate/action pair; the engine applies
the ordered rules whose predicate matches, each output feeding the next.
The post-translation rules model the spec's three named families: the
regex-function-semantics correction (the generic translator maps the source
dialect's REGEXP_LIKE call to no valid target function; rewrite it to the
target's rlike), identifier-quoting and alias/identifier-casing
normalization, and the wrapper re-wrap for the parameterized-execution
construct (whose decline-guard against re-wrapping already-wrapped text is
the spec's mandated idempotence mechanism).  The pre-translation rule trims
the raw statement text. -/

structure QuirkRule where
  name : String
  pred : String → Bool
  action : String → String

/-- Apply one rule: rewrite when the predicate matches, else decline
(no-op). -/
def applyRule (r : QuirkRule) (s : String) : String :=
  if r.pred s then r.action s else s

/-- Apply an ordered rule list, each rule's output feeding the next. -/
def applyRules (rules : List QuirkRule) (s : String) : String :=
  rules.foldl (fun acc r => applyRule r acc) s

/-- The target dialect's identifier quote character (backquote). -/
def backquoteChar : Char := Char.ofNat 96

/-- Identifier-quote substitution table: double quote to backquote. -/
def quotePairs : List (Char × Char) := [('"', backquoteChar)]

/-- Rewrite a statement character-wise through a substitution table. -/
def charMapAction (pairs : List (Char × Char)) (s : String) : String :=
  String.mk (s.data.map (mapChar pairs))

def ruleIdentifierQuoting : QuirkRule :=
  { name := "identifier-quoting", pred := fun _ => true,
    action := charMapAction quotePairs }

def ruleAliasCasing : QuirkRule :=
  { name := "alias-casing", pred := fun _ => true,
    action := charMapAction lowerPairs }

/-- Whether `pat` occurs as a contiguous substring of the second list. -/
def containsSeq (pat : List Char) : List Char → Bool
  | [] => pat.isEmpty
  | c :: cs => pat.isPrefixOf (c :: cs) || containsSeq pat cs

/-- Replace every occurrence of `pat` by `rep`, scanning left to right. -/
def replaceAllAux (pat rep : List Char) (hpat : pat ≠ []) :
    List Char → List Char
  | [] => []
  | c :: cs =>
    if pat.isPrefixOf (c :: cs) then
      rep ++ replaceAllAux pat rep hpat ((c :: cs).drop pat.length)
    else
      c :: replaceAllAux pat rep hpat cs
termination_by l => l.length
decreasing_by
  · have h0 : 0 < pat.length := List.length_pos.mpr hpat
    simp [List.length_drop]
    omega
  · simp

/-- The source dialect's regex predicate the generic translator maps
incorrectly. -/
def regexpSourcePattern : List Char := "REGEXP_LIKE".data

/-- The target dialect's equivalent regex function name. -/
def regexpTargetName : List Char := "rlike".data

/-- Post rule: correct a regex-function-semantics mismatch — rewrite every
occurrence of the source dialect's REGEXP_LIKE call name to the target
dialect's rlike.  Idempotent because the rewritten text can no longer
contain the source pattern, so a second pass declines. -/
def ruleRegexpSemantics : QuirkRule :=
  { name := "regexp-semantics"
    pred := fun s => containsSeq regexpSourcePattern s.data
    action := fun s =>
      String.mk (replaceAllAux regexpSourcePattern regexpTargetName
        (by decide) s.data) }

/-- The target dialect's parameterized-execution wrapper keyword. -/
def executeImmediateMarker : String := "EXECUTE IMMEDIATE "

/-- Post rule: re-wrap a translated inner statement in the target dialect's
parameterized-execution wrapper (the pre-translation stage's wrapper
metadata is modelled by the textual guard).  The rule declines when the
statement is already wrapped, so it never stacks wrappers. -/
def ruleWrapperRewrap : QuirkRule :=
  { name := "wrapper-rewrap"
    pred := fun s => !(executeImmediateMarker.data.isPrefixOf s.data)
    action := fun s => executeImmediateMarker ++ s }

/-- The post-translation rule set, in registration order. -/
def postRules : List QuirkRule :=
  [ruleRegexpSemantics, ruleIdentifierQuoting, ruleAliasCasing,
   ruleWrapperRewrap]

def trimChars (l : List Char) : List Char :=
  ((l.dropWhile Char.isWhitespace).reverse.dropWhile Char.isWhitespace).reverse

/-- Pre-translation cleanup: trim surrounding whitespace off the raw
statement before handing it to the translator. -/
def ruleStatementTrim : QuirkRule :=
  { name := "statement-trim", pred := fun _ => true,
    action := fun s => String.mk (trimChars s.data) }

/-- The pre-translation rule set, in registration order. -/
def preRules : List QuirkRule := [ruleStatementTrim]

/-! ### Pipeline and Batch Orchestrator

Modelled from the spec: `converter.py`'s pipeline and `app.py`'s batch
orchestration are missing from the snapshot.  Per statement: pre-fixups,
translate (injected external transpiler adapter), post-fixups, classify;
per batch: one ConversionJob per named input, results flattened into three
buckets with per-bucket counts and a `_converted`/`_compatible`/`_errors`
artifact triplet per input name. -/

/-- The cleaned candidate text handed to the translator for a unit. -/
def cleanedText (u : StatementUnit) : String :=
  applyRules preRules (String.mk u.text)

/-- Process one StatementUnit: pre-fixups, translate, post-fixups,
classify. -/
def processStatement (translate : String → Except TransError String)
    (u : StatementUnit) : ConversionResult :=
  match translate (cleanedText u) with
  | .error e => classify (String.mk u.text) (.error e)
  | .ok t => classify (String.mk u.text) (.ok (applyRules postRules t))

def pipelineResults (translate : String → Except TransError String)
    (units : List StatementUnit) : List ConversionResult :=
  units.map (processStatement translate)

def hasStatus (st : Status) (r : ConversionResult) : Bool :=
  r.status = st

def bucketConverted (rs : List ConversionResult) : List ConversionResult :=
  rs.filter (hasStatus .converted)

def bucketCompatible (rs : List ConversionResult) : List ConversionResult :=
  rs.filter (hasStatus .alreadyCompatible)

def bucketErrors (rs : List ConversionResult) : List ConversionResult :=
  rs.filter (hasStatus .error)

structure ConversionJob where
  name : String
  results : List ConversionResult
deriving DecidableEq

/-- Convert one named input: split it and process each unit. -/
def runJob (translate : String → Except TransError String)
    (name text : String) : ConversionJob :=
  ⟨name, pipelineResults translate (split text)⟩

structure Artifact where
  name : String
  content : String
deriving DecidableEq

def joinTexts (ss : List String) : String :=
  ss.foldl (fun acc s => acc ++ s ++ ";\n") ""

/-- The three output artifacts of one job:
`<basename>_converted`, `<basename>_compatible`, `<basename>_errors`. -/
def jobArtifacts (j : ConversionJob) : List Artifact :=
  [⟨j.name ++ "_converted",
      joinTexts ((bucketConverted j.results).filterMap (fun r => r.produced))⟩,
   ⟨j.name ++ "_compatible",
      joinTexts ((bucketCompatible j.results).map (fun r => r.original))⟩,
   ⟨j.name ++ "_errors",
      joinTexts ((bucketErrors j.results).filterMap (fun r => r.diagnostic))⟩]

def allResults (js : List ConversionJob) : List ConversionResult :=
  (js.map (fun j => j.results)).flatten

structure BatchReport where
  jobs : List ConversionJob
  artifacts : List Artifact
  convertedCount : Nat
  compatibleCount : Nat
  errorCount : Nat
deriving DecidableEq

/-- `run(jobs)`: the Batch Orchestrator over an ordered collection of named
text blobs. -/
def run (translate : String → Except TransError String)
    (jobs : List (String × String)) : BatchReport :=
  let js := jobs.map (fun p => runJob translate p.1 p.2)
  { jobs := js
    artifacts := (js.map jobArtifacts).flatten
    convertedCount := (bucketConverted (allResults js)).length
    compatibleCount := (bucketCompatible (allResults js)).length
    errorCount := (bucketErrors (allResults js)).length }

/-- A concrete translator used to witness the batch-level theorems: it
fails on the statement `BAD` and echoes anything else. -/
def demoTranslate (s : String) : Except TransError String :=
  if s = "BAD" then .error ⟨.parseError, "cannot parse", s⟩ else .ok s

theorem unitsChars_splitAllAux (st : SplitState) (acc cs : List Char) :
    unitsChars (splitAllAux st acc cs) = acc.reverse ++ cs := by
  induction st, acc, cs using splitAllAux.induct <;>
    simp_all [splitAllAux, unitsChars, unitChars]

/-- C1: the claim as stated is false — splitting is not lossless for all
inputs.  On the input consisting of a single terminator, the blank segment
before the terminator is dropped together with its separator, so the
concatenation of the produced units is empty and does not reconstruct the
input. -/
theorem split_lossless_counterexample : unitsChars (split ";") ≠ ";".data := by
  decide

/-- C1 (amended): splitting is lossless on every input none of whose raw
segments is blank/whitespace-only; on such inputs, concatenating the
StatementUnits produced by `split` with their original separators
reconstructs the input exactly.  (Dropping a blank segment deletes its
characters, so the restriction is forced.) -/
theorem split_lossless_of_no_blank_segment (T : String)
    (h : ∀ u ∈ splitAll T, isBlankUnit u = false) :
    unitsChars (split T) = T.data := by
  have hfilter : split T = splitAll T := by
    apply List.filter_eq_self.mpr
    intro u hu
    simp [h u hu]
  rw [hfilter]
  simpa using unitsChars_splitAllAux .normal [] T.data

/-- Witness for the amended C1 at a concrete two-statement input. -/
theorem split_lossless_witness :
    unitsChars (split "SELECT 1; SELECT 2") = "SELECT 1; SELECT 2".data :=
  split_lossless_of_no_blank_segment "SELECT 1; SELECT 2" (by decide)

/-- C2: a statement terminator seen in any non-Normal state (inside a
single- or double-quoted string literal, a line comment or a block comment)
never ends a statement — the state machine just accumulates it — and in
particular `SELECT ';' AS x; SELECT 2;` splits into exactly two statements,
the first being `SELECT ';' AS x`. -/
theorem splitter_quoting_safety :
    (∀ (st : SplitState) (acc cs : List Char), st ≠ .normal →
        splitAllAux st acc (';' :: cs) = splitAllAux st (';' :: acc) cs) ∧
    (split "SELECT ';' AS x; SELECT 2;").length = 2 ∧
    (split "SELECT ';' AS x; SELECT 2;").map (fun u => u.text) =
      ["SELECT ';' AS x".data, " SELECT 2".data] := by
  refine ⟨?_, by decide, by decide⟩
  intro st acc cs h
  cases st with
  | normal => exact absurd rfl h
  | inSingleQuoteString => rfl
  | inDoubleQuoteString => rfl
  | inLineComment => rfl
  | inBlockComment => rfl

/-- Witness for C2's universally quantified part at a concrete non-Normal
state. -/
theorem splitter_quoting_safety_witness :
    splitAllAux .inSingleQuoteString [] [';'] =
      splitAllAux .inSingleQuoteString [';'] [] :=
  splitter_quoting_safety.1 .inSingleQuoteString [] [] (by decide)

/-- C3: splitting the empty string yields zero units, and no unit ever
emitted by `split` is blank/whitespace-only (blank segments between
terminators are dropped). -/
theorem split_empty_and_no_blank_units :
    split "" = [] ∧
    ∀ (T : String), ∀ u ∈ split T, isBlankUnit u = false := by
  refine ⟨rfl, ?_⟩
  intro T u hu
  have h := (List.mem_filter.mp hu).2
  simpa using h

/-- Witness for C3's universally quantified part at a concrete input. -/
theorem split_no_blank_units_witness :
    isBlankUnit ⟨"SELECT 1".data, some ';'⟩ = false :=
  split_empty_and_no_blank_units.2 "SELECT 1;" ⟨"SELECT 1".data, some ';'⟩
    (by decide)

/-! ### App deployment notebook

Embedded from `src/app_deployer.py.ipynb`: the permission grant the
notebook makes for the created app's service principal on the source code
directory, and the notebook's computation of the app's source code path
from the execution context. -/

inductive WorkspaceObjectPermissionLevel where
  | canRead
  | canRun
  | canEdit
  | canManage
deriving DecidableEq

structure WorkspaceObjectAccessControlRequest where
  service_principal_name : String
  permission_level : WorkspaceObjectPermissionLevel
deriving DecidableEq

/-- The `access_control_list` the notebook passes to
`w.workspace.update_permissions` on the source code directory: a single
entry for the app's service principal at level CAN_READ. -/
def appAccessControlList (servicePrincipalClientId : String) :
    List WorkspaceObjectAccessControlRequest :=
  [{ service_principal_name := servicePrincipalClientId,
     permission_level := .canRead }]

/-- Python's `s.rsplit(sep, 1)[0]` for a one-character separator: the text
before the last occurrence of the separator, or the whole string when the
separator does not occur. -/
def rsplitHead (sep : Char) (s : String) : String :=
  match s.data.reverse.dropWhile (fun c => !(c = sep)) with
  | [] => s
  | _ :: before => String.mk before.reverse

/-- The notebook's
`'/Workspace' + notebook_path.rsplit('/', 1)[0] if notebook_path else None`,
with Python truthiness: both None and the empty string are falsy. -/
def default_source_code_path (notebook_path : Option String) :
    Option String :=
  match notebook_path with
  | some p =>
      if p.data.isEmpty then none
      else some ("/Workspace" ++ rsplitHead '/' p)
  | none => none

structure App where
  name : String
  description : String
  default_source_code_path : Option String
deriving DecidableEq

/-- The `App` value the notebook passes to `w.apps.create_and_wait`. -/
def createdApp (notebook_path : Option String) : App :=
  { name := "databricks-presto-converter"
    description :=
      "An application for converting presto SQL to Databricks SQL using sqlglot."
    default_source_code_path := default_source_code_path notebook_path }

theorem mem_of_lookup_eq_some {pairs : List (Char × Char)} {c v : Char}
    (h : pairs.lookup c = some v) : (c, v) ∈ pairs := by
  induction pairs with
  | nil => simp [List.lookup] at h
  | cons p ps ih =>
    rcases p with ⟨k, b⟩
    by_cases hck : c = k
    · subst hck
      simp [List.lookup] at h
      simp [h]
    · have hbeq : (c == k) = false := beq_eq_false_iff_ne.mpr hck
      simp [List.lookup, hbeq] at h
      exact List.mem_cons_of_mem _ (ih h)

theorem mapChar_idem (pairs : List (Char × Char))
    (h : ∀ p ∈ pairs, mapChar pairs p.2 = p.2) (c : Char) :
    mapChar pairs (mapChar pairs c) = mapChar pairs c := by
  cases hl : pairs.lookup c with
  | none =>
    have hc : mapChar pairs c = c := by simp [mapChar, hl]
    simp [hc]
  | some v =>
    have hc : mapChar pairs c = v := by simp [mapChar, hl]
    have hv := h (c, v) (mem_of_lookup_eq_some hl)
    rw [hc]
    exact hv

theorem charMapAction_idem (pairs : List (Char × Char))
    (h : ∀ p ∈ pairs, mapChar pairs p.2 = p.2) (s : String) :
    charMapAction pairs (charMapAction pairs s) = charMapAction pairs s := by
  unfold charMapAction
  congr 1
  show (s.data.map (mapChar pairs)).map (mapChar pairs) =
    s.data.map (mapChar pairs)
  rw [List.map_map]
  exact List.map_congr_left (fun c _ => mapChar_idem pairs h c)

theorem containsSeq_infix_iff (pat l : List Char) :
    containsSeq pat l = true ↔ pat <:+: l := by
  induction l with
  | nil => simp [containsSeq, List.isEmpty_iff]
  | cons c cs ih =>
    simp [containsSeq, ih, List.infix_cons_iff, List.isPrefixOf_iff_prefix]

theorem prefix_of_prefix_length_le {l₁ l₂ l₃ : List Char} (h1 : l₁ <+: l₃)
    (h2 : l₂ <+: l₃) (hl : l₁.length ≤ l₂.length) : l₁ <+: l₂ := by
  rw [List.prefix_iff_eq_take] at h1 h2 ⊢
  conv_rhs => rw [h2]
  rw [List.take_take, Nat.min_eq_left hl]
  exact h1

/-- Any prefix of the replacement scanner's output built only from the
pattern's characters is already a prefix of the scanner's input (the
replacement text's head character never occurs in the pattern, so such a
prefix cannot reach into a replaced block). -/
theorem prefix_mem_replaceAllAux (pat rep : List Char) (hpat : pat ≠ [])
    (hrep : rep ≠ []) (hhead : rep.head hrep ∉ pat) (l : List Char) :
    ∀ q : List Char, q ≠ [] → (∀ x ∈ q, x ∈ pat) →
      q <+: replaceAllAux pat rep hpat l → q <+: l := by
  induction l with
  | nil =>
    intro q hq _ hpre
    simp only [replaceAllAux] at hpre
    exact absurd (List.prefix_nil.mp hpre) hq
  | cons c cs ih =>
    intro q hq hmem hpre
    simp only [replaceAllAux] at hpre
    split at hpre
    · obtain ⟨r0, rtail, hr⟩ : ∃ r0 rtail, rep = r0 :: rtail := by
        cases rep with
        | nil => exact absurd rfl hrep
        | cons a b => exact ⟨a, b, rfl⟩
      cases q with
      | nil => exact absurd rfl hq
      | cons q0 qt =>
        subst hr
        rw [List.cons_append] at hpre
        have hq0 : q0 = r0 := (List.cons_prefix_cons.mp hpre).1
        have : q0 ∈ pat := hmem q0 (List.mem_cons_self _ _)
        rw [hq0] at this
        exact absurd this hhead
    · cases q with
      | nil => exact absurd rfl hq
      | cons q0 qt =>
        obtain ⟨hq0, hqt⟩ := List.cons_prefix_cons.mp hpre
        subst hq0
        by_cases hqt0 : qt = []
        · subst hqt0
          exact List.cons_prefix_cons.mpr ⟨rfl, List.nil_prefix⟩
        · have : qt <+: cs :=
            ih qt hqt0 (fun x hx => hmem x (List.mem_cons_of_mem _ hx)) hqt
          exact List.cons_prefix_cons.mpr ⟨rfl, this⟩

/-- An occurrence of `pat` inside `rep ++ Y` lies inside `rep`, lies inside
`Y`, or covers the last character of `rep`. -/
theorem infix_append_split {pat rep Y : List Char} (h : pat <:+: rep ++ Y) :
    pat <:+: rep ∨ pat <:+: Y ∨ ∃ hrep : rep ≠ [], rep.getLast hrep ∈ pat := by
  induction rep with
  | nil => exact Or.inr (Or.inl (by simpa using h))
  | cons r rtail ih =>
    rw [List.cons_append, List.infix_cons_iff] at h
    rcases h with hpre | hinf
    · have hp : pat <+: (r :: rtail) ++ Y := by rwa [List.cons_append]
      have h2 : (r :: rtail) <+: (r :: rtail) ++ Y := List.prefix_append _ _
      by_cases hlen : pat.length ≤ (r :: rtail).length
      · exact Or.inl (prefix_of_prefix_length_le hp h2 hlen).isInfix
      · push_neg at hlen
        have hrp : (r :: rtail) <+: pat :=
          prefix_of_prefix_length_le h2 hp (le_of_lt hlen)
        exact Or.inr (Or.inr ⟨List.cons_ne_nil r rtail,
          hrp.subset (List.getLast_mem _)⟩)
    · rcases ih hinf with h1 | h2 | ⟨hrt, h3⟩
      · exact Or.inl (List.infix_cons h1)
      · exact Or.inr (Or.inl h2)
      · refine Or.inr (Or.inr ⟨List.cons_ne_nil r rtail, ?_⟩)
        rw [List.getLast_cons hrt]
        exact h3

/-- The replacement scanner's output never contains the pattern, provided
the replacement does not contain it, its first and last characters do not
occur in the pattern, and pattern and replacement are nonempty. -/
theorem containsSeq_replaceAllAux (pat rep : List Char) (hpat : pat ≠ [])
    (hrep : rep ≠ []) (hhead : rep.head hrep ∉ pat)
    (hlast : rep.getLast hrep ∉ pat) (hinrep : containsSeq pat rep = false) :
    ∀ l, containsSeq pat (replaceAllAux pat rep hpat l) = false := by
  have hlen0 : 0 < pat.length := List.length_pos.mpr hpat
  suffices H : ∀ n (l : List Char), l.length ≤ n →
      containsSeq pat (replaceAllAux pat rep hpat l) = false by
    intro l
    exact H l.length l le_rfl
  intro n
  induction n with
  | zero =>
    intro l hl
    have hnil : l = [] := List.length_eq_zero.mp (Nat.le_zero.mp hl)
    subst hnil
    simp only [replaceAllAux, containsSeq]
    simpa [List.isEmpty_iff] using hpat
  | succ n ih =>
    intro l hl
    cases l with
    | nil =>
      simp only [replaceAllAux, containsSeq]
      simpa [List.isEmpty_iff] using hpat
    | cons c cs =>
      simp only [replaceAllAux]
      split
      · have hYfalse : containsSeq pat
            (replaceAllAux pat rep hpat ((c :: cs).drop pat.length)) =
              false := by
          apply ih
          simp only [List.length_cons] at hl
          simp only [List.length_drop, List.length_cons]
          omega
        have hnotinf : ¬ pat <:+: rep ++
            replaceAllAux pat rep hpat ((c :: cs).drop pat.length) := by
          intro hi
          rcases infix_append_split hi with h1 | h2 | ⟨h3, h4⟩
          · rw [← containsSeq_infix_iff, hinrep] at h1
            cases h1
          · rw [← containsSeq_infix_iff, hYfalse] at h2
            cases h2
          · exact hlast h4
        cases hb : containsSeq pat (rep ++
            replaceAllAux pat rep hpat ((c :: cs).drop pat.length)) with
        | false => rfl
        | true => exact absurd ((containsSeq_infix_iff _ _).mp hb) hnotinf
      · case isFalse hmatch =>
        have hcs : containsSeq pat (replaceAllAux pat rep hpat cs) = false := by
          apply ih
          simp only [List.length_cons] at hl
          omega
        simp only [containsSeq, Bool.or_eq_false_iff]
        refine ⟨?_, hcs⟩
        cases hb : pat.isPrefixOf (c :: replaceAllAux pat rep hpat cs) with
        | false => rfl
        | true =>
          have hp := List.isPrefixOf_iff_prefix.mp hb
          have hrw : replaceAllAux pat rep hpat (c :: cs) =
              c :: replaceAllAux pat rep hpat cs := by
            simp only [replaceAllAux]
            rw [if_neg hmatch]
          have hp2 : pat <+: replaceAllAux pat rep hpat (c :: cs) := by
            rw [hrw]
            exact hp
          have hpc : pat <+: c :: cs :=
            prefix_mem_replaceAllAux pat rep hpat hrep hhead (c :: cs) pat
              hpat (fun x hx => hx) hp2
          exact absurd (List.isPrefixOf_iff_prefix.mpr hpc) hmatch

theorem bucket_length_partition (rs : List ConversionResult) :
    (bucketConverted rs).length + (bucketCompatible rs).length +
      (bucketErrors rs).length = rs.length := by
  induction rs with
  | nil => simp [bucketConverted, bucketCompatible, bucketErrors]
  | cons r rs ih =>
    cases h : r.status <;>
      simp [bucketConverted, bucketCompatible, bucketErrors, List.filter_cons,
        hasStatus, h] at ih ⊢ <;> omega

/-- C4: `classify` returns status Error exactly when translation failed,
with a diagnostic containing the error kind, message and attempted candidate
text; on success it returns AlreadyCompatible exactly when original and
translated agree under whitespace-insensitive, case-insensitive
normalization, and Converted otherwise. -/
theorem classify_spec (original : String)
    (translated : Except TransError String) :
    ((classify original translated).status = .error ↔
      ∃ e, translated = .error e) ∧
    (∀ e, translated = .error e →
      (classify original translated).diagnostic = some (diagnosticFor e) ∧
      (kindLabel e.kind).data <:+: (diagnosticFor e).data ∧
      e.message.data <:+: (diagnosticFor e).data ∧
      e.candidate.data <:+: (diagnosticFor e).data) ∧
    (∀ t, translated = .ok t →
      ((classify original translated).status = .alreadyCompatible ↔
        normalizeSql original = normalizeSql t) ∧
      ((classify original translated).status = .converted ↔
        normalizeSql original ≠ normalizeSql t)) := by
  refine ⟨?_, ?_, ?_⟩
  · cases translated with
    | error e => simp [classify]
    | ok t =>
      by_cases h : normalizeSql original = normalizeSql t <;>
        simp [classify, h]
  · rintro e rfl
    refine ⟨rfl, ?_, ?_, ?_⟩
    · have := List.infix_append ([] : List Char) (kindLabel e.kind).data
        (": " ++ e.message ++ " | candidate: " ++ e.candidate).data
      simpa [diagnosticFor, String.data_append] using this
    · have := List.infix_append (kindLabel e.kind ++ ": ").data e.message.data
        (" | candidate: " ++ e.candidate).data
      simpa [diagnosticFor, String.data_append] using this
    · have := List.infix_append
        (kindLabel e.kind ++ ": " ++ e.message ++ " | candidate: ").data
        e.candidate.data ([] : List Char)
      simpa [diagnosticFor, String.data_append] using this
  · rintro t rfl
    by_cases h : normalizeSql original = normalizeSql t <;>
      simp [classify, h]

/-- Witness for C4 at a concrete failed translation and a concrete
successful one. -/
theorem classify_spec_witness :
    (classify "SELECT 1"
        (Except.error ⟨.parseError, "bad token", "SELECT 1"⟩)).diagnostic =
      some (diagnosticFor ⟨.parseError, "bad token", "SELECT 1"⟩) ∧
    ((classify "SELECT 1" (Except.ok "select  1")).status =
        .alreadyCompatible ↔
      normalizeSql "SELECT 1" = normalizeSql "select  1") :=
  ⟨((classify_spec "SELECT 1" _).2.1 _ rfl).1,
   ((classify_spec "SELECT 1" _).2.2 "select  1" rfl).1⟩

/-- C5: each StatementUnit fed through the pipeline yields exactly one
ConversionResult bearing exactly one of the three statuses, and the three
buckets partition the results: lengths sum to the total, and a result lies
in a bucket exactly when it bears that bucket's status (so it lies in
exactly one bucket and none is omitted). -/
theorem pipeline_classification_partition
    (translate : String → Except TransError String)
    (units : List StatementUnit) :
    (pipelineResults translate units).length = units.length ∧
    (∀ (p : Nat) (u : StatementUnit), units[p]? = some u →
      (pipelineResults translate units)[p]? =
        some (processStatement translate u)) ∧
    ((bucketConverted (pipelineResults translate units)).length +
      (bucketCompatible (pipelineResults translate units)).length +
      (bucketErrors (pipelineResults translate units)).length =
      (pipelineResults translate units).length) ∧
    (∀ r ∈ pipelineResults translate units,
      (r.status = .converted ∨ r.status = .alreadyCompatible ∨
        r.status = .error) ∧
      (r ∈ bucketConverted (pipelineResults translate units) ↔
        r.status = .converted) ∧
      (r ∈ bucketCompatible (pipelineResults translate units) ↔
        r.status = .alreadyCompatible) ∧
      (r ∈ bucketErrors (pipelineResults translate units) ↔
        r.status = .error)) := by
  refine ⟨by simp [pipelineResults], ?_, bucket_length_partition _, ?_⟩
  · intro p u hu
    simp [pipelineResults, List.getElem?_map, hu]
  · intro r hr
    refine ⟨by cases r.status <;> simp, ?_, ?_, ?_⟩ <;>
      simp [bucketConverted, bucketCompatible, bucketErrors, hasStatus,
        List.mem_filter, hr]

/-- Witness for C5 at a concrete unit: its single result and the
exactly-one-status disjunction. -/
theorem pipeline_classification_partition_witness :
    ((pipelineResults demoTranslate [⟨"SELECT 1".data, some ';'⟩])[0]? =
      some (processStatement demoTranslate ⟨"SELECT 1".data, some ';'⟩)) ∧
    ((processStatement demoTranslate
        ⟨"SELECT 1".data, some ';'⟩).status = .converted ∨
      (processStatement demoTranslate
        ⟨"SELECT 1".data, some ';'⟩).status = .alreadyCompatible ∨
      (processStatement demoTranslate
        ⟨"SELECT 1".data, some ';'⟩).status = .error) :=
  ⟨(pipeline_classification_partition demoTranslate _).2.1 0 _ rfl,
   ((pipeline_classification_partition demoTranslate
      [⟨"SELECT 1".data, some ';'⟩]).2.2.2 _ (by simp [pipelineResults])).1⟩

/-- C6: every post-translation QuirkRule is idempotent — applying a rule to
its own output yields no further change. -/
theorem post_rule_idempotent (r : QuirkRule) (hr : r ∈ postRules)
    (s : String) : applyRule r (applyRule r s) = applyRule r s := by
  have hq : ∀ p ∈ quotePairs, mapChar quotePairs p.2 = p.2 := by decide
  have hl : ∀ p ∈ lowerPairs, mapChar lowerPairs p.2 = p.2 := by decide
  simp only [postRules, List.mem_cons, List.not_mem_nil, or_false] at hr
  rcases hr with rfl | rfl | rfl | rfl
  · by_cases hp : containsSeq regexpSourcePattern s.data = true
    · have hfalse := containsSeq_replaceAllAux regexpSourcePattern
        regexpTargetName (by decide) (by decide) (by decide) (by decide)
        (by decide) s.data
      simp [applyRule, ruleRegexpSemantics, hp, hfalse]
    · simp [applyRule, ruleRegexpSemantics, hp]
  · simpa [applyRule, ruleIdentifierQuoting] using
      charMapAction_idem quotePairs hq s
  · simpa [applyRule, ruleAliasCasing] using
      charMapAction_idem lowerPairs hl s
  · by_cases hp :
        executeImmediateMarker.data.isPrefixOf s.data = true
    · simp [applyRule, ruleWrapperRewrap, hp]
    · have hwrapped :
          executeImmediateMarker.data.isPrefixOf
            (executeImmediateMarker ++ s).data = true := by
        rw [String.data_append]
        exact List.isPrefixOf_iff_prefix.mpr (List.prefix_append _ _)
      simp [applyRule, ruleWrapperRewrap, hp, hwrapped]

/-- Witness for C6: the alias-casing rule applied twice at a concrete
statement. -/
theorem post_rule_idempotent_witness :
    applyRule ruleAliasCasing (applyRule ruleAliasCasing "SELECT A") =
      applyRule ruleAliasCasing "SELECT A" :=
  post_rule_idempotent ruleAliasCasing (by simp [postRules]) "SELECT A"

/-- C7: `run` always returns a complete BatchReport — one job per input, one
result per split statement — and a translation failure is isolated: a
statement's result has status Error exactly when its own translation failed,
independently of every other statement. -/
theorem run_error_resilience (translate : String → Except TransError String)
    (jobs : List (String × String)) :
    (run translate jobs).jobs.length = jobs.length ∧
    (∀ (p : Nat) (nm tx : String), jobs[p]? = some (nm, tx) →
      (run translate jobs).jobs[p]? = some (runJob translate nm tx)) ∧
    (∀ nm tx, (runJob translate nm tx).results.length =
      (split tx).length) ∧
    (∀ u, (processStatement translate u).status = .error ↔
      ∃ e, translate (cleanedText u) = .error e) := by
  refine ⟨by simp [run], ?_, ?_, ?_⟩
  · intro p nm tx h
    simp [run, List.getElem?_map, h]
  · intro nm tx
    simp [runJob, pipelineResults]
  · intro u
    unfold processStatement
    cases ht : translate (cleanedText u) with
    | error e => simp [classify]
    | ok t =>
      by_cases hn : normalizeSql (String.mk u.text) =
          normalizeSql (applyRules postRules t) <;>
        simp [classify, hn]

/-- Witness for C7: a three-statement batch whose middle statement fails to
parse still yields its complete job, and the failing statement's own result
is the Error entry. -/
theorem run_error_resilience_witness :
    (run demoTranslate [("queries", "SELECT 1; BAD; SELECT 2;")]).jobs.length
        = 1 ∧
    (run demoTranslate [("queries", "SELECT 1; BAD; SELECT 2;")]).jobs[0]? =
      some (runJob demoTranslate "queries" "SELECT 1; BAD; SELECT 2;") ∧
    ((processStatement demoTranslate ⟨"BAD".data, some ';'⟩).status =
        .error ↔
      ∃ e, demoTranslate (cleanedText ⟨"BAD".data, some ';'⟩) =
        .error e) :=
  ⟨(run_error_resilience demoTranslate _).1,
   (run_error_resilience demoTranslate _).2.1 0 "queries"
     "SELECT 1; BAD; SELECT 2;" rfl,
   (run_error_resilience demoTranslate
      [("queries", "SELECT 1; BAD; SELECT 2;")]).2.2.2
     ⟨"BAD".data, some ';'⟩⟩

theorem run_artifact_names_aux
    (translate : String → Except TransError String)
    (jobs : List (String × String)) :
    (((jobs.map (fun p => runJob translate p.1 p.2)).map
        jobArtifacts).flatten).map (fun a => a.name) =
      (jobs.map (fun p =>
        [p.1 ++ "_converted", p.1 ++ "_compatible",
          p.1 ++ "_errors"])).flatten := by
  induction jobs with
  | nil => simp
  | cons j js ih =>
    simp only [List.map_cons, List.flatten_cons, List.map_append, ih]
    simp [jobArtifacts, runJob]

theorem run_artifacts_length_aux (f : String × String → ConversionJob)
    (jobs : List (String × String)) :
    ((jobs.map f).map jobArtifacts).flatten.length = 3 * jobs.length := by
  induction jobs with
  | nil => simp
  | cons j js ih =>
    simp only [List.map_cons, List.flatten_cons, List.length_append, ih,
      List.length_cons]
    simp [jobArtifacts]
    omega

/-- C8: the report's artifacts are exactly one triplet per input name,
named `<basename>_converted`, `<basename>_compatible`,
`<basename>_errors`, and the report carries the batch-wide counts per
bucket. -/
theorem report_artifact_naming
    (translate : String → Except TransError String)
    (jobs : List (String × String)) :
    ((run translate jobs).artifacts.map (fun a => a.name) =
      (jobs.map (fun p =>
        [p.1 ++ "_converted", p.1 ++ "_compatible",
          p.1 ++ "_errors"])).flatten) ∧
    (run translate jobs).artifacts.length = 3 * jobs.length ∧
    (run translate jobs).convertedCount =
      (bucketConverted (allResults (run translate jobs).jobs)).length ∧
    (run translate jobs).compatibleCount =
      (bucketCompatible (allResults (run translate jobs).jobs)).length ∧
    (run translate jobs).errorCount =
      (bucketErrors (allResults (run translate jobs).jobs)).length := by
  refine ⟨run_artifact_names_aux translate jobs, ?_, rfl, rfl, rfl⟩
  exact run_artifacts_length_aux (fun p => runJob translate p.1 p.2) jobs

/-- C9: the notebook grants the created app's service principal exactly one
permission entry on the source code directory, and its level is CAN_READ;
no edit or manage permission is ever granted. -/
theorem update_permissions_read_only (spId : String) :
    (appAccessControlList spId).length = 1 ∧
    ∀ e ∈ appAccessControlList spId,
      e.service_principal_name = spId ∧
      e.permission_level = .canRead ∧
      e.permission_level ≠ .canEdit ∧
      e.permission_level ≠ .canManage := by
  refine ⟨rfl, ?_⟩
  intro e he
  simp only [appAccessControlList, List.mem_singleton] at he
  subst he
  refine ⟨rfl, rfl, ?_, ?_⟩ <;> simp

/-- Witness for C9 at a concrete service principal id. -/
theorem update_permissions_read_only_witness :
    ({ service_principal_name := "sp-123", permission_level := .canRead } :
        WorkspaceObjectAccessControlRequest).permission_level = .canRead :=
  (((update_permissions_read_only "sp-123").2 _
      (by simp [appAccessControlList]))).2.1

/-- C10: when the execution context yields no notebook path (None or the
empty string), the notebook computes a None source code path — no failure —
and the app is created with a None source code path. -/
theorem default_source_code_path_of_no_notebook_path
    (notebook_path : Option String)
    (h : notebook_path = none ∨ notebook_path = some "") :
    default_source_code_path notebook_path = none ∧
    (createdApp notebook_path).default_source_code_path = none := by
  rcases h with rfl | rfl <;> exact ⟨rfl, rfl⟩

/-- Witness for C10 at the None notebook path. -/
theorem default_source_code_path_witness :
    default_source_code_path none = none ∧
    (createdApp none).default_source_code_path = none :=
  default_source_code_path_of_no_notebook_path none (Or.inl rfl)
